import Mathlib

/-!
Verification of a polyphonic software synthesizer core.

The Rust source (engine.rs, synth.rs) is shallowly embedded over ℚ:
every `f32` value is modelled as a rational number, and the transcendental
functions `sin`, `cos` and `2^x` that the source calls are threaded through
as explicit function parameters (`sinq`, `cosq`, `pow2q`), since none of the
verified properties depend on their values.  The `f32` constant `π` is the
exact rational value of `std::f32::consts::PI`.  Stateful methods become
functions returning a pair of the produced sample and the updated state.
-/

/-- Exact rational value of the f32 constant `std::f32::consts::PI`
(bit pattern 0x40490FDB, i.e. 13176795 * 2^-22). -/
def f32pi : ℚ := 13176795 / 4194304

/-- Rust `f32::clamp(self, min, max)`: if below `lo` take `lo`, if above
`hi` take `hi`, otherwise the value itself. -/
def clampQ (x lo hi : ℚ) : ℚ := if x < lo then lo else if x > hi then hi else x

/-- Rust `f32` division where a zero divisor yields a non-finite value
(`0.0/0.0` is NaN, `x/0.0` is an infinity); `none` marks the non-finite
result. -/
def f32div (x y : ℚ) : Option ℚ := if y = 0 then none else some (x / y)

/-- In-place update of element `i` of a list, modelling Rust's
`slice[i] = ...`; out of bounds leaves the list unchanged. -/
def modifyIdx {α : Type} : List α → ℕ → (α → α) → List α
  | [], _, _ => []
  | a :: l, 0, f => f a :: l
  | a :: l, n + 1, f => a :: modifyIdx l n f

/-- Structure `SineOscillator` from engine.rs: frequency, amplitude, phase accumulator
and sample rate. -/
structure SineOscillator where
  frequency : ℚ
  amplitude : ℚ
  phase : ℚ
  sample_rate : ℚ
deriving DecidableEq

/-- Constructor `SineOscillator::new`: frequency 440, amplitude 1, phase 0. -/
def SineOscillator.new (sr : ℚ) : SineOscillator :=
  { frequency := 440, amplitude := 1, phase := 0, sample_rate := sr }

def SineOscillator.set_frequency (o : SineOscillator) (freq : ℚ) : SineOscillator :=
  { o with frequency := freq }

def SineOscillator.set_amplitude (o : SineOscillator) (amp : ℚ) : SineOscillator :=
  { o with amplitude := amp }

/-- Method `SineOscillator::next_sample`: return `sin(2π·phase)·amplitude` at the
current phase, then advance the phase by `frequency/sample_rate` and
subtract 1 once if the result reached 1. -/
def SineOscillator.next_sample (sinq : ℚ → ℚ) (o : SineOscillator) :
    ℚ × SineOscillator :=
  let sample := sinq (o.phase * 2 * f32pi) * o.amplitude
  let phase' := o.phase + o.frequency / o.sample_rate
  let phase'' := if phase' ≥ 1 then phase' - 1 else phase'
  (sample, { o with phase := phase'' })

/-- Iterated `next_sample` of a sine oscillator (state after `n` calls). -/
def SineOscillator.iterate (sinq : ℚ → ℚ) (o : SineOscillator) : ℕ → SineOscillator
  | 0 => o
  | n + 1 => ((o.iterate sinq n).next_sample sinq).2

/-- Structure `Harmonic` from engine.rs. -/
structure Harmonic where
  frequency_multiplier : ℚ
  amplitude : ℚ
  phase : ℚ
  enabled : Bool
deriving DecidableEq

/-- Structure `AdditiveEngine` from engine.rs: 64 harmonics with one sine oscillator
each. -/
structure AdditiveEngine where
  harmonics : List Harmonic
  base_frequency : ℚ
  sample_rate : ℚ
  oscillators : List SineOscillator
deriving DecidableEq

/-- Constructor `AdditiveEngine::new`: harmonics 1..=64, only the fundamental enabled
with amplitude 1. -/
def AdditiveEngine.new (sr : ℚ) : AdditiveEngine :=
  { harmonics := (List.range 64).map (fun i =>
      { frequency_multiplier := (i + 1 : ℕ),
        amplitude := if i = 0 then 1 else 0,
        phase := 0,
        enabled := i == 0 }),
    base_frequency := 440,
    sample_rate := sr,
    oscillators := (List.range 64).map (fun _ => SineOscillator.new sr) }

/-- Method `AdditiveEngine::set_base_frequency`: each oscillator gets frequency
`base * multiplier` and amplitude `enabled ? amplitude : 0`. -/
def AdditiveEngine.set_base_frequency (e : AdditiveEngine) (freq : ℚ) : AdditiveEngine :=
  { e with
    base_frequency := freq,
    oscillators := (e.oscillators.zip e.harmonics).map (fun p =>
      { p.1 with
        frequency := freq * p.2.frequency_multiplier,
        amplitude := if p.2.enabled then p.2.amplitude else 0 }) }

/-- Method `AdditiveEngine::set_harmonic_amplitude`: in bounds, store the amplitude
in the harmonic and set the oscillator amplitude to it (unconditionally);
out of bounds, no-op. -/
def AdditiveEngine.set_harmonic_amplitude (e : AdditiveEngine) (i : ℕ) (amplitude : ℚ) :
    AdditiveEngine :=
  if i < e.harmonics.length then
    { e with
      harmonics := modifyIdx e.harmonics i (fun h => { h with amplitude := amplitude }),
      oscillators := modifyIdx e.oscillators i (fun o => o.set_amplitude amplitude) }
  else e

/-- Method `AdditiveEngine::toggle_harmonic`: flip the enabled flag and re-derive
the oscillator amplitude as `enabled ? amplitude : 0`. -/
def AdditiveEngine.toggle_harmonic (e : AdditiveEngine) (i : ℕ) : AdditiveEngine :=
  if h : i < e.harmonics.length then
    let enabled' := !(e.harmonics[i].enabled)
    let amp := if enabled' then e.harmonics[i].amplitude else 0
    { e with
      harmonics := modifyIdx e.harmonics i (fun hh => { hh with enabled := enabled' }),
      oscillators := modifyIdx e.oscillators i (fun o => o.set_amplitude amp) }
  else e

/-- Method `AdditiveEngine::next_sample`: sum all oscillator outputs, divide by the
fixed constant 64. -/
def AdditiveEngine.next_sample (sinq : ℚ → ℚ) (e : AdditiveEngine) :
    ℚ × AdditiveEngine :=
  let stepped := e.oscillators.map (fun o => o.next_sample sinq)
  ((stepped.map Prod.fst).sum / 64, { e with oscillators := stepped.map Prod.snd })

/-- Structure `Operator` from engine.rs. -/
structure Operator where
  frequency_ratio : ℚ
  amplitude : ℚ
  feedback : ℚ
  enabled : Bool
deriving DecidableEq

/-- Structure `FMEngine` from engine.rs: 6 operators, their oscillators, and a
per-operator feedback buffer. -/
structure FMEngine where
  operators : List Operator
  base_frequency : ℚ
  sample_rate : ℚ
  oscillators : List SineOscillator
  feedback_buffer : List ℚ
deriving DecidableEq

/-- Constructor `FMEngine::new`: operator 0 enabled with ratio 1 and amplitude 1, the
rest disabled with ratio 0 and amplitude 0. -/
def FMEngine.new (sr : ℚ) : FMEngine :=
  { operators := (List.range 6).map (fun i =>
      { frequency_ratio := if i = 0 then 1 else 0,
        amplitude := if i = 0 then 1 else 0,
        feedback := 0,
        enabled := i == 0 }),
    base_frequency := 440,
    sample_rate := sr,
    oscillators := (List.range 6).map (fun _ => SineOscillator.new sr),
    feedback_buffer := List.replicate 6 0 }

/-- Method `FMEngine::set_base_frequency`. -/
def FMEngine.set_base_frequency (e : FMEngine) (freq : ℚ) : FMEngine :=
  { e with
    base_frequency := freq,
    oscillators := (e.oscillators.zip e.operators).map (fun p =>
      p.1.set_frequency (freq * p.2.frequency_ratio)) }

/-- Method `FMEngine::next_sample`: loop over the operators in index order; skip
disabled ones; for an enabled operator, phase modulation is its own
feedback buffer times its feedback amount (when positive) plus 0.1 times
every other enabled operator's feedback buffer; the operator's sample is
`sin(oscillator output + phase modulation) * amplitude`, written back into
its feedback buffer and accumulated; finally divide by the constant 6. -/
def FMEngine.next_sample (sinq : ℚ → ℚ) (e : FMEngine) : ℚ × FMEngine :=
  let n := e.operators.length
  let opDefault : Operator := { frequency_ratio := 0, amplitude := 0, feedback := 0, enabled := false }
  let final := (List.range n).foldl
    (fun (st : List SineOscillator × List ℚ × ℚ) i =>
      let oscs := st.1
      let fb := st.2.1
      let out := st.2.2
      let op := e.operators.getD i opDefault
      if op.enabled = false then st
      else
        let pm1 : ℚ := if op.feedback > 0 then fb.getD i 0 * op.feedback else 0
        let pm : ℚ := (List.range n).foldl
          (fun acc j =>
            if i ≠ j ∧ (e.operators.getD j opDefault).enabled = true then
              acc + fb.getD j 0 * (1 / 10)
            else acc) pm1
        let r := (oscs.getD i (SineOscillator.new e.sample_rate)).next_sample sinq
        let sample := sinq (r.1 + pm) * op.amplitude
        (modifyIdx oscs i (fun _ => r.2), modifyIdx fb i (fun _ => sample), out + sample))
    (e.oscillators, e.feedback_buffer, 0)
  (final.2.2 / 6, { e with oscillators := final.1, feedback_buffer := final.2.1 })

/-- Structure `EngineBlender` from engine.rs. -/
structure EngineBlender where
  additive_engine : AdditiveEngine
  fm_engine : FMEngine
  blend_ratio : ℚ
deriving DecidableEq

/-- Constructor `EngineBlender::new`: default blend ratio 0.5. -/
def EngineBlender.new (sr : ℚ) : EngineBlender :=
  { additive_engine := AdditiveEngine.new sr,
    fm_engine := FMEngine.new sr,
    blend_ratio := 1 / 2 }

/-- Method `EngineBlender::set_blend_ratio`: clamp to [0,1]. -/
def EngineBlender.set_blend_ratio (b : EngineBlender) (ratio : ℚ) : EngineBlender :=
  { b with blend_ratio := clampQ ratio 0 1 }

/-- Method `EngineBlender::set_frequency`: forward to both engines. -/
def EngineBlender.set_frequency (b : EngineBlender) (freq : ℚ) : EngineBlender :=
  { b with
    additive_engine := b.additive_engine.set_base_frequency freq,
    fm_engine := b.fm_engine.set_base_frequency freq }

/-- Method `EngineBlender::next_sample`: linear crossfade
`additive*(1-blend) + fm*blend`. -/
def EngineBlender.next_sample (sinq : ℚ → ℚ) (b : EngineBlender) :
    ℚ × EngineBlender :=
  let ra := b.additive_engine.next_sample sinq
  let rf := b.fm_engine.next_sample sinq
  (ra.1 * (1 - b.blend_ratio) + rf.1 * b.blend_ratio,
   { b with additive_engine := ra.2, fm_engine := rf.2 })

/-- Enum `EnvelopeStage` from synth.rs. -/
inductive EnvelopeStage
  | Attack
  | Decay
  | Sustain
  | Release
  | Idle
deriving DecidableEq

/-- Structure `Envelope` (the ADSR parameter set) from synth.rs. -/
structure Envelope where
  attack : ℚ
  decay : ℚ
  sustain : ℚ
  release : ℚ
deriving DecidableEq

/-- Default `Envelope::default`: attack 0.01, decay 0.1, sustain 0.7, release 0.2. -/
def Envelope.default : Envelope :=
  { attack := 1 / 100, decay := 1 / 10, sustain := 7 / 10, release := 1 / 5 }

/-- Structure `EnvelopeGenerator` from synth.rs. -/
structure EnvelopeGenerator where
  envelope : Envelope
  sample_rate : ℚ
  current_stage : EnvelopeStage
  current_time : ℚ
  current_value : ℚ
  gate : Bool
deriving DecidableEq

/-- Constructor `EnvelopeGenerator::new`: default envelope, stage Idle, time 0, value 0,
gate off. -/
def EnvelopeGenerator.new (sr : ℚ) : EnvelopeGenerator :=
  { envelope := Envelope.default, sample_rate := sr,
    current_stage := EnvelopeStage.Idle, current_time := 0, current_value := 0,
    gate := false }

def EnvelopeGenerator.set_envelope (e : EnvelopeGenerator) (env : Envelope) :
    EnvelopeGenerator :=
  { e with envelope := env }

/-- Method `EnvelopeGenerator::note_on`: gate on, stage Attack, time 0. -/
def EnvelopeGenerator.note_on (e : EnvelopeGenerator) : EnvelopeGenerator :=
  { e with gate := true, current_stage := EnvelopeStage.Attack, current_time := 0 }

/-- Method `EnvelopeGenerator::note_off`: gate off, stage Release, time 0. -/
def EnvelopeGenerator.note_off (e : EnvelopeGenerator) : EnvelopeGenerator :=
  { e with gate := false, current_stage := EnvelopeStage.Release, current_time := 0 }

/-- Method `EnvelopeGenerator::next_sample`: advance the ADSR state machine by one
sample period and return the new current value. -/
def EnvelopeGenerator.next_sample (e : EnvelopeGenerator) : ℚ × EnvelopeGenerator :=
  let e' :=
    match e.current_stage with
    | EnvelopeStage.Attack =>
      let t := e.current_time + 1 / e.sample_rate
      if t ≥ e.envelope.attack then
        { e with current_stage := EnvelopeStage.Decay, current_time := 0,
                 current_value := 1 }
      else
        { e with current_time := t, current_value := t / e.envelope.attack }
    | EnvelopeStage.Decay =>
      let t := e.current_time + 1 / e.sample_rate
      if t ≥ e.envelope.decay then
        { e with current_time := t, current_stage := EnvelopeStage.Sustain,
                 current_value := e.envelope.sustain }
      else
        { e with current_time := t,
                 current_value := 1 - (1 - e.envelope.sustain) * (t / e.envelope.decay) }
    | EnvelopeStage.Sustain =>
      if e.gate = false then
        { e with current_stage := EnvelopeStage.Release, current_time := 0,
                 current_value := e.envelope.sustain }
      else
        { e with current_value := e.envelope.sustain }
    | EnvelopeStage.Release =>
      let t := e.current_time + 1 / e.sample_rate
      if t ≥ e.envelope.release then
        { e with current_time := t, current_stage := EnvelopeStage.Idle,
                 current_value := 0 }
      else
        { e with current_time := t,
                 current_value := e.envelope.sustain * (1 - t / e.envelope.release) }
    | EnvelopeStage.Idle => { e with current_value := 0 }
  (e'.current_value, e')

/-- Instrumented `EnvelopeGenerator::next_sample` that returns `none`
exactly when the source would divide by a zero stage duration (the only
way the f32 code could produce a non-finite value). -/
def EnvelopeGenerator.next_sampleChecked (e : EnvelopeGenerator) :
    Option (ℚ × EnvelopeGenerator) :=
  match e.current_stage with
  | EnvelopeStage.Attack =>
    let t := e.current_time + 1 / e.sample_rate
    if t ≥ e.envelope.attack then some (e.next_sample)
    else if e.envelope.attack = 0 then none
    else some (e.next_sample)
  | EnvelopeStage.Decay =>
    let t := e.current_time + 1 / e.sample_rate
    if t ≥ e.envelope.decay then some (e.next_sample)
    else if e.envelope.decay = 0 then none
    else some (e.next_sample)
  | EnvelopeStage.Release =>
    let t := e.current_time + 1 / e.sample_rate
    if t ≥ e.envelope.release then some (e.next_sample)
    else if e.envelope.release = 0 then none
    else some (e.next_sample)
  | _ => some (e.next_sample)

/-- Iterated `next_sample` of an envelope generator (state after `n`
calls). -/
def EnvelopeGenerator.iterate (e : EnvelopeGenerator) : ℕ → EnvelopeGenerator
  | 0 => e
  | n + 1 => ((e.iterate n).next_sample).2

/-- Structure `LowPassFilter` from synth.rs: cutoff, resonance, sample rate and the
two-sample output buffer. -/
structure LowPassFilter where
  cutoff_frequency : ℚ
  resonance : ℚ
  sample_rate : ℚ
  buffer : ℚ × ℚ
deriving DecidableEq

/-- Constructor `LowPassFilter::new`: cutoff 20000, resonance 0, zero buffer. -/
def LowPassFilter.new (sr : ℚ) : LowPassFilter :=
  { cutoff_frequency := 20000, resonance := 0, sample_rate := sr, buffer := (0, 0) }

/-- Method `LowPassFilter::set_cutoff`: clamp to [20, sample_rate/2]. -/
def LowPassFilter.set_cutoff (f : LowPassFilter) (cutoff : ℚ) : LowPassFilter :=
  { f with cutoff_frequency := clampQ cutoff 20 (f.sample_rate / 2) }

/-- Method `LowPassFilter::set_resonance`: clamp to [0,1]. -/
def LowPassFilter.set_resonance (f : LowPassFilter) (resonance : ℚ) : LowPassFilter :=
  { f with resonance := clampQ resonance 0 1 }

/-- Method `LowPassFilter::process`: recompute the biquad coefficients from
`q = 1 + resonance*10` and `w0 = 2π·cutoff/sample_rate`, apply the
difference equation, and shift the output buffer. -/
def LowPassFilter.process (sinq cosq : ℚ → ℚ) (f : LowPassFilter) (input : ℚ) :
    ℚ × LowPassFilter :=
  let freq := f.cutoff_frequency / f.sample_rate
  let q := 1 + f.resonance * 10
  let w0 := 2 * f32pi * freq
  let alpha := sinq w0 / (2 * q)
  let b0 := (1 - cosq alpha) / 2
  let b1 := 1 - cosq alpha
  let b2 := (1 - cosq alpha) / 2
  let a0 := 1 + alpha
  let a1 := -2 * cosq alpha
  let a2 := 1 - alpha
  let output := (b0 * input + b1 * f.buffer.1 + b2 * f.buffer.2
                - a1 * f.buffer.1 - a2 * f.buffer.2) / a0
  (output, { f with buffer := (output, f.buffer.1) })

/-- Claim-side filter recurrence, following the claim text for comparison
with `LowPassFilter.process`: identical to the source except that the
claim takes `q` to be the stored resonance value itself rather than the
source's `1 + resonance*10`. -/
def LowPassFilter.processClaimC4 (sinq cosq : ℚ → ℚ) (f : LowPassFilter) (input : ℚ) :
    ℚ × LowPassFilter :=
  let freq := f.cutoff_frequency / f.sample_rate
  let q := f.resonance
  let w0 := 2 * f32pi * freq
  let alpha := sinq w0 / (2 * q)
  let b0 := (1 - cosq alpha) / 2
  let b1 := 1 - cosq alpha
  let b2 := (1 - cosq alpha) / 2
  let a0 := 1 + alpha
  let a1 := -2 * cosq alpha
  let a2 := 1 - alpha
  let output := (b0 * input + b1 * f.buffer.1 + b2 * f.buffer.2
                - a1 * f.buffer.1 - a2 * f.buffer.2) / a0
  (output, { f with buffer := (output, f.buffer.1) })

/-- Structure `Voice` from synth.rs: one engine blender, envelope, filter, plus note,
velocity and the active flag. -/
structure Voice where
  engine_blender : EngineBlender
  envelope : EnvelopeGenerator
  filter : LowPassFilter
  frequency : ℚ
  velocity : ℚ
  note : ℕ
  is_active : Bool
deriving DecidableEq

/-- Constructor `Voice::new`: frequency 440, velocity 0.5, note 60, inactive. -/
def Voice.new (sr : ℚ) : Voice :=
  { engine_blender := EngineBlender.new sr,
    envelope := EnvelopeGenerator.new sr,
    filter := LowPassFilter.new sr,
    frequency := 440, velocity := 1 / 2, note := 60, is_active := false }

/-- Method `Voice::note_on`: compute the note frequency `440·2^((note-69)/12)`
(the f32 `powf` is the parameter `pow2q`), clamp velocity to [0,1], set the
blender frequency, trigger the envelope, and mark the voice active. -/
def Voice.note_on (pow2q : ℚ → ℚ) (v : Voice) (note : ℕ) (velocity : ℚ) : Voice :=
  let frequency := 440 * pow2q (((note : ℚ) - 69) / 12)
  { v with
    frequency := frequency,
    note := note,
    velocity := clampQ velocity 0 1,
    engine_blender := v.engine_blender.set_frequency frequency,
    envelope := v.envelope.note_on,
    is_active := true }

/-- Method `Voice::note_off`: release the envelope and mark the voice inactive. -/
def Voice.note_off (v : Voice) : Voice :=
  { v with envelope := v.envelope.note_off, is_active := false }

/-- Method `Voice::next_sample`: return 0 (with no state change) when the voice is
inactive; otherwise run blender, envelope and filter and scale by
velocity. -/
def Voice.next_sample (sinq cosq : ℚ → ℚ) (v : Voice) : ℚ × Voice :=
  if v.is_active = false then (0, v)
  else
    let rb := v.engine_blender.next_sample sinq
    let re := v.envelope.next_sample
    let rf := v.filter.process sinq cosq (rb.1 * re.1)
    (rf.1 * v.velocity,
     { v with engine_blender := rb.2, envelope := re.2, filter := rf.2 })

/-- Method `Voice::is_released`: inactive and envelope stage Idle. -/
def Voice.is_released (v : Voice) : Bool :=
  !v.is_active && decide (v.envelope.current_stage = EnvelopeStage.Idle)

def Voice.set_blend (v : Voice) (blend : ℚ) : Voice :=
  { v with engine_blender := v.engine_blender.set_blend_ratio blend }

/-- Method `Voice::set_cutoff`: scales the [0,1]-style control value by 20000
before forwarding to the filter, which clamps. -/
def Voice.set_cutoff (v : Voice) (cutoff : ℚ) : Voice :=
  { v with filter := v.filter.set_cutoff (cutoff * 20000) }

def Voice.set_resonance (v : Voice) (resonance : ℚ) : Voice :=
  { v with filter := v.filter.set_resonance resonance }

def Voice.set_attack (v : Voice) (attack : ℚ) : Voice :=
  { v with envelope := { v.envelope with envelope := { v.envelope.envelope with attack := attack } } }

def Voice.set_decay (v : Voice) (decay : ℚ) : Voice :=
  { v with envelope := { v.envelope with envelope := { v.envelope.envelope with decay := decay } } }

/-- Method `Voice::set_sustain`: stores the raw value (the source has no clamp
here). -/
def Voice.set_sustain (v : Voice) (sustain : ℚ) : Voice :=
  { v with envelope := { v.envelope with envelope := { v.envelope.envelope with sustain := sustain } } }

def Voice.set_release (v : Voice) (release : ℚ) : Voice :=
  { v with envelope := { v.envelope with envelope := { v.envelope.envelope with release := release } } }

/-- Method `Voice::set_volume`: clamp to [0,1] and store as the velocity. -/
def Voice.set_volume (v : Voice) (volume : ℚ) : Voice :=
  { v with velocity := clampQ volume 0 1 }

def Voice.set_harmonic_amplitude (v : Voice) (i : ℕ) (amplitude : ℚ) : Voice :=
  { v with engine_blender :=
      { v.engine_blender with additive_engine :=
          v.engine_blender.additive_engine.set_harmonic_amplitude i amplitude } }

def Voice.toggle_harmonic (v : Voice) (i : ℕ) : Voice :=
  { v with engine_blender :=
      { v.engine_blender with additive_engine :=
          v.engine_blender.additive_engine.toggle_harmonic i } }

/-- Structure `Synthesizer` from synth.rs: pool of voices keyed by note number
(modelled as an association list with unique keys), fixed sample rate
44100. -/
structure Synthesizer where
  voices : List (ℕ × Voice)
  sample_rate : ℚ
  current_note : Option ℕ
  current_velocity : Option ℚ
deriving DecidableEq

/-- Constructor `Synthesizer::new`: empty voice pool, sample rate 44100. -/
def Synthesizer.new : Synthesizer :=
  { voices := [], sample_rate := 44100, current_note := none, current_velocity := none }

/-- Method `Synthesizer::note_on`: look up or lazily create the voice for the note
(`HashMap::entry(note).or_insert_with(Voice::new)`), then call its
`note_on`. -/
def Synthesizer.note_on (pow2q : ℚ → ℚ) (s : Synthesizer) (note : ℕ) (velocity : ℚ) :
    Synthesizer :=
  { s with
    voices :=
      if note ∈ s.voices.map Prod.fst then
        s.voices.map (fun p =>
          (p.1, if p.1 = note then p.2.note_on pow2q note velocity else p.2))
      else
        s.voices ++ [(note, (Voice.new s.sample_rate).note_on pow2q note velocity)],
    current_note := some note,
    current_velocity := some velocity }

/-- Method `Synthesizer::note_off`: release the voice for the note if one exists;
no-op otherwise. -/
def Synthesizer.note_off (s : Synthesizer) (note : ℕ) : Synthesizer :=
  { s with
    voices := s.voices.map (fun p => (p.1, if p.1 = note then p.2.note_off else p.2)),
    current_note := none, current_velocity := none }

/-- Method `Synthesizer::next_sample`: sum `next_sample` over every voice in the
pool and divide by the total pool size (ℚ division, where `x / 0 = 0`). -/
def Synthesizer.next_sample (sinq cosq : ℚ → ℚ) (s : Synthesizer) :
    ℚ × Synthesizer :=
  let stepped := s.voices.map (fun p => (p.1, p.2.next_sample sinq cosq))
  ((stepped.map (fun p => p.2.1)).sum / (s.voices.length : ℚ),
   { s with voices := stepped.map (fun p => (p.1, p.2.2)) })

/-- Variant of `Synthesizer::next_sample` with the final division given f32 semantics
via `f32div`: the returned value is `none` when the divisor (the pool
size) is zero, which in f32 is `0.0 / 0.0 = NaN`. -/
def Synthesizer.next_sampleChecked (sinq cosq : ℚ → ℚ) (s : Synthesizer) :
    Option ℚ × Synthesizer :=
  let stepped := s.voices.map (fun p => (p.1, p.2.next_sample sinq cosq))
  (f32div (stepped.map (fun p => p.2.1)).sum (s.voices.length : ℚ),
   { s with voices := stepped.map (fun p => (p.1, p.2.2)) })

/-- Method `Synthesizer::is_playing`: some voice in the pool is active. -/
def Synthesizer.is_playing (s : Synthesizer) : Bool :=
  s.voices.any (fun p => p.2.is_active)

/-- External events driving a `Synthesizer`: note-on, note-off, or one pull
of `next_sample` by the audio producer. -/
inductive SynthEvent
  | noteOn (note : ℕ) (velocity : ℚ)
  | noteOff (note : ℕ)
  | sample

/-- Apply one event to a synthesizer state. -/
def Synthesizer.applyEvent (pow2q sinq cosq : ℚ → ℚ) (s : Synthesizer) :
    SynthEvent → Synthesizer
  | SynthEvent.noteOn n v => s.note_on pow2q n v
  | SynthEvent.noteOff n => s.note_off n
  | SynthEvent.sample => (s.next_sample sinq cosq).2

/-- Run an event trace from the freshly created synthesizer. -/
def Synthesizer.run (pow2q sinq cosq : ℚ → ℚ) (es : List SynthEvent) : Synthesizer :=
  es.foldl (Synthesizer.applyEvent pow2q sinq cosq) Synthesizer.new

/-- The note of a note-on event, if any. -/
def SynthEvent.noteOnNote : SynthEvent → Option ℕ
  | SynthEvent.noteOn n _ => some n
  | _ => none

/-- Concrete instantiation of the transcendental-function parameters:
constant zero. -/
def zeroFn : ℚ → ℚ := fun _ => 0

/-- Concrete instantiation of the transcendental-function parameters:
identity. -/
def idFn : ℚ → ℚ := fun x => x

/-- Concrete instantiation of the transcendental-function parameters:
constant one. -/
def oneFn : ℚ → ℚ := fun _ => 1

/-- Concrete filter state used to compare the source recurrence with the
claimed one: cutoff at Nyquist, resonance 1, zeroed buffer. -/
def filterStateC4 : LowPassFilter :=
  { cutoff_frequency := 22050, resonance := 1, sample_rate := 44100, buffer := (0, 0) }

/-- Concrete envelope generator caught in mid-Attack with a nonzero output
value, used to exercise a note-off issued before Sustain. -/
def envelopeMidAttack : EnvelopeGenerator :=
  { EnvelopeGenerator.new 44100 with
    current_stage := EnvelopeStage.Attack, current_time := 1 / 22050,
    current_value := 1 / 100, gate := true }

/-- Concrete envelope generator in Attack with a zero-length attack
parameter. -/
def envelopeAttackZero : EnvelopeGenerator :=
  { EnvelopeGenerator.new 44100 with
    current_stage := EnvelopeStage.Attack,
    envelope := { Envelope.default with attack := 0 }, gate := true }

/-- Default harmonic value used with `List.getD` when indexing harmonic
lists. -/
def harmonicDefault : Harmonic :=
  { frequency_multiplier := 0, amplitude := 0, phase := 0, enabled := false }

/-!
Helper lemmas about the list and clamp primitives, followed by one theorem
(plus counterexample and witness where applicable) per verified claim.
-/

theorem length_modifyIdx {α : Type} (l : List α) (i : ℕ) (f : α → α) :
    (modifyIdx l i f).length = l.length := by
  induction l generalizing i with
  | nil => rfl
  | cons a t ih =>
    cases i with
    | zero => rfl
    | succ n => simp [modifyIdx, ih]

theorem getD_modifyIdx_self {α : Type} (l : List α) (i : ℕ) (f : α → α) (d : α)
    (h : i < l.length) : (modifyIdx l i f).getD i d = f (l.getD i d) := by
  induction l generalizing i with
  | nil => simp at h
  | cons a t ih =>
    cases i with
    | zero => rfl
    | succ n =>
      simp only [modifyIdx, List.getD_cons_succ]
      exact ih n (by simpa using h)

theorem getD_modifyIdx_ne {α : Type} (l : List α) (i j : ℕ) (f : α → α) (d : α)
    (h : j ≠ i) : (modifyIdx l i f).getD j d = l.getD j d := by
  induction l generalizing i j with
  | nil => rfl
  | cons a t ih =>
    cases i with
    | zero =>
      cases j with
      | zero => exact absurd rfl h
      | succ m => rfl
    | succ n =>
      cases j with
      | zero => rfl
      | succ m =>
        simp only [modifyIdx, List.getD_cons_succ]
        exact ih n m (fun hc => h (by simp [hc]))

theorem clampQ_mem (x lo hi : ℚ) (h : lo ≤ hi) :
    lo ≤ clampQ x lo hi ∧ clampQ x lo hi ≤ hi := by
  unfold clampQ
  split_ifs with h1 h2 <;> constructor <;> linarith

theorem next_sample_state (sinq : ℚ → ℚ) (o : SineOscillator) :
    ((o.next_sample sinq).2).phase =
      (if o.phase + o.frequency / o.sample_rate ≥ 1
       then o.phase + o.frequency / o.sample_rate - 1
       else o.phase + o.frequency / o.sample_rate)
    ∧ ((o.next_sample sinq).2).frequency = o.frequency
    ∧ ((o.next_sample sinq).2).sample_rate = o.sample_rate :=
  ⟨rfl, rfl, rfl⟩

/-- C1 counterexample: a voice that received `note_on` then `note_off` is
inactive but not yet released (its envelope is in Release, not Idle), and
`next_sample` nonetheless returns 0 with the state completely unchanged —
the signal chain does not run, contradicting the claim that 0 is returned
only once `is_released` is true. -/
theorem claim1_counterexample :
    ((Voice.new 44100).note_on oneFn 60 1).note_off.is_active = false
    ∧ ((Voice.new 44100).note_on oneFn 60 1).note_off.is_released = false
    ∧ ((Voice.new 44100).note_on oneFn 60 1).note_off.next_sample zeroFn zeroFn
        = (0, ((Voice.new 44100).note_on oneFn 60 1).note_off) :=
  ⟨rfl, rfl, rfl⟩

/-- C1 (amended): `Voice::next_sample` returns 0 immediately, with no state
change, whenever the voice is inactive — even while the envelope is still
producing its Release tail — and runs the full chain (engine blender, then
envelope gain, then low-pass filter, scaled by velocity) only while the
voice is active; `is_released` is never consulted. -/
theorem claim1_theorem (sinq cosq : ℚ → ℚ) (v : Voice) :
    (v.is_active = false → v.next_sample sinq cosq = (0, v))
    ∧ (v.is_active = true →
        v.next_sample sinq cosq =
          ((v.filter.process sinq cosq
              ((v.engine_blender.next_sample sinq).1 * (v.envelope.next_sample).1)).1
             * v.velocity,
           { v with
             engine_blender := (v.engine_blender.next_sample sinq).2,
             envelope := (v.envelope.next_sample).2,
             filter := (v.filter.process sinq cosq
               ((v.engine_blender.next_sample sinq).1 * (v.envelope.next_sample).1)).2 })) := by
  constructor
  · intro h
    simp [Voice.next_sample, h]
  · intro h
    simp [Voice.next_sample, h]

/-- C1 witness: the freshly created (inactive) voice yields sample 0 with
unchanged state. -/
theorem claim1_witness :
    (Voice.new 44100).next_sample zeroFn zeroFn = (0, Voice.new 44100) :=
  (claim1_theorem zeroFn zeroFn (Voice.new 44100)).1 rfl

/-- C2 counterexample: after `note_on(60,1)` the synthesizer is playing,
but immediately after `note_off(60)` — with zero samples elapsed, while
the voice's envelope is in Release with the default release time 0.2s
still to run — `is_playing` is already false, contradicting the claim
that it stays true until the release time has elapsed. -/
theorem claim2_counterexample :
    ((Synthesizer.new).note_on oneFn 60 1).is_playing = true
    ∧ (((Synthesizer.new).note_on oneFn 60 1).note_off 60).is_playing = false
    ∧ ((((Synthesizer.new).note_on oneFn 60 1).note_off 60).voices.getD 0
        (0, Voice.new 0)).2.envelope.current_stage = EnvelopeStage.Release
    ∧ ((((Synthesizer.new).note_on oneFn 60 1).note_off 60).voices.getD 0
        (0, Voice.new 0)).2.envelope.envelope.release = 1/5 :=
  ⟨rfl, rfl, rfl, rfl⟩

/-- C2 (amended): `is_playing` reflects the note-held state, not
audibility: after `note_on(note, v)` it is true, and it becomes false
immediately upon `note_off(note)` (provided every other voice in the pool
is inactive), without waiting for the release time to elapse. -/
theorem claim2_theorem (pow2q : ℚ → ℚ) (s : Synthesizer) (note : ℕ) (velocity : ℚ)
    (hrest : ∀ p ∈ s.voices, p.1 ≠ note → p.2.is_active = false) :
    (s.note_on pow2q note velocity).is_playing = true
    ∧ ((s.note_on pow2q note velocity).note_off note).is_playing = false := by
  constructor
  · simp only [Synthesizer.is_playing, List.any_eq_true]
    simp only [Synthesizer.note_on]
    by_cases hmem : note ∈ s.voices.map Prod.fst
    · rw [if_pos hmem]
      obtain ⟨p, hp, hpn⟩ := List.mem_map.mp hmem
      refine ⟨(p.1, if p.1 = note then p.2.note_on pow2q note velocity else p.2),
        List.mem_map_of_mem _ hp, ?_⟩
      simp only [if_pos hpn]
      rfl
    · rw [if_neg hmem]
      exact ⟨(note, (Voice.new s.sample_rate).note_on pow2q note velocity), by simp, rfl⟩
  · have hall : ∀ p ∈ ((s.note_on pow2q note velocity).note_off note).voices,
        p.2.is_active = false := by
      intro q hq
      simp only [Synthesizer.note_off] at hq
      obtain ⟨p, hp, hq2⟩ := List.mem_map.mp hq
      by_cases hpn : p.1 = note
      · rw [← hq2]
        simp only [if_pos hpn]
        rfl
      · rw [← hq2]
        simp only [if_neg hpn]
        simp only [Synthesizer.note_on] at hp
        by_cases hmem : note ∈ s.voices.map Prod.fst
        · rw [if_pos hmem] at hp
          obtain ⟨r, hr, hr2⟩ := List.mem_map.mp hp
          have h1 : r.1 = p.1 := by rw [← hr2]
          have hrn : r.1 ≠ note := by rw [h1]; exact hpn
          have h2 : p.2 = r.2 := by rw [← hr2]; simp [if_neg hrn]
          rw [h2]
          exact hrest r hr hrn
        · rw [if_neg hmem] at hp
          rcases List.mem_append.mp hp with h | h
          · exact hrest p h hpn
          · simp only [List.mem_singleton] at h
            exact absurd (by rw [h]) hpn
    simp only [Synthesizer.is_playing, List.any_eq_false]
    intro p hp
    simp [hall p hp]

/-- C2 witness: on the empty pool, note 69 on then off. -/
theorem claim2_witness :
    ((Synthesizer.new).note_on zeroFn 69 (1/2)).is_playing = true
    ∧ (((Synthesizer.new).note_on zeroFn 69 (1/2)).note_off 69).is_playing = false :=
  claim2_theorem zeroFn Synthesizer.new 69 (1/2) (by intro p hp; simp [Synthesizer.new] at hp)

/-- C3 counterexample: `set_sustain 2` stores 2, which is outside [0,1] —
the sustain setter does not clamp. -/
theorem claim3_counterexample :
    ((Voice.new 44100).set_sustain 2).envelope.envelope.sustain = 2
    ∧ ¬ (((Voice.new 44100).set_sustain 2).envelope.envelope.sustain ≤ 1) := by
  refine ⟨rfl, by decide⟩

/-- C3 (amended): volume, resonance and blend setter inputs are clamped to
[0,1], and the filter cutoff to [20, sampleRate/2] (for any sample rate of
at least 40 Hz, so that the clamp interval is nonempty), but `set_sustain`
stores its input unclamped: the stored sustain equals the raw argument and
need not lie in [0,1]. -/
theorem claim3_theorem (v : Voice) (x : ℚ) (hsr : 40 ≤ v.filter.sample_rate) :
    (0 ≤ (v.set_volume x).velocity ∧ (v.set_volume x).velocity ≤ 1)
    ∧ (0 ≤ (v.set_resonance x).filter.resonance
        ∧ (v.set_resonance x).filter.resonance ≤ 1)
    ∧ (0 ≤ (v.set_blend x).engine_blender.blend_ratio
        ∧ (v.set_blend x).engine_blender.blend_ratio ≤ 1)
    ∧ (20 ≤ (v.set_cutoff x).filter.cutoff_frequency
        ∧ (v.set_cutoff x).filter.cutoff_frequency ≤ v.filter.sample_rate / 2)
    ∧ (v.set_sustain x).envelope.envelope.sustain = x := by
  refine ⟨?_, ?_, ?_, ?_, rfl⟩
  · exact clampQ_mem x 0 1 (by norm_num)
  · exact clampQ_mem x 0 1 (by norm_num)
  · exact clampQ_mem x 0 1 (by norm_num)
  · exact clampQ_mem (x * 20000) 20 (v.filter.sample_rate / 2) (by linarith)

/-- C3 witness: the fresh voice at sample rate 44100 with setter input 2. -/
theorem claim3_witness :
    (0 ≤ ((Voice.new 44100).set_volume 2).velocity
      ∧ ((Voice.new 44100).set_volume 2).velocity ≤ 1)
    ∧ (0 ≤ ((Voice.new 44100).set_resonance 2).filter.resonance
        ∧ ((Voice.new 44100).set_resonance 2).filter.resonance ≤ 1)
    ∧ (0 ≤ ((Voice.new 44100).set_blend 2).engine_blender.blend_ratio
        ∧ ((Voice.new 44100).set_blend 2).engine_blender.blend_ratio ≤ 1)
    ∧ (20 ≤ ((Voice.new 44100).set_cutoff 2).filter.cutoff_frequency
        ∧ ((Voice.new 44100).set_cutoff 2).filter.cutoff_frequency
            ≤ (Voice.new 44100).filter.sample_rate / 2)
    ∧ ((Voice.new 44100).set_sustain 2).envelope.envelope.sustain = 2 :=
  claim3_theorem (Voice.new 44100) 2 (by norm_num [Voice.new, LowPassFilter.new])

/-- C4 counterexample: at cutoff 22050, resonance 1 (inside the claimed
[0,1] range), zero buffers and input 1, the source `process` disagrees
with the claimed recurrence `processClaimC4` in which the quality factor
is the stored resonance value: the source uses `q = 1 + resonance*10`. -/
theorem claim4_counterexample :
    (filterStateC4.process idFn zeroFn 1).1
      ≠ (filterStateC4.processClaimC4 idFn zeroFn 1).1 := by
  norm_num [LowPassFilter.process, LowPassFilter.processClaimC4, filterStateC4,
    idFn, zeroFn, f32pi]

/-- C4 (amended): for every input sample and filter state,
`LowPassFilter::process` computes
`output = (b0·in + b1·buf0 + b2·buf1 − a1·buf0 − a2·buf1)/a0` with
`b0 = b2 = (1−cos α)/2`, `b1 = 1−cos α`, `a0 = 1+α`, `a1 = −2cos α`,
`a2 = 1−α`, where `α = sin(w0)/(2q)`, `w0 = 2π·cutoff/sampleRate`, and
`q = 1 + 10·resonance` (not the stored resonance value itself); it then
updates `buf1 ← buf0`, `buf0 ← output`. -/
theorem claim4_theorem (sinq cosq : ℚ → ℚ) (f : LowPassFilter) (input : ℚ) :
    f.process sinq cosq input =
      (((1 - cosq (sinq (2 * f32pi * (f.cutoff_frequency / f.sample_rate))
            / (2 * (1 + f.resonance * 10)))) / 2 * input
        + (1 - cosq (sinq (2 * f32pi * (f.cutoff_frequency / f.sample_rate))
            / (2 * (1 + f.resonance * 10)))) * f.buffer.1
        + (1 - cosq (sinq (2 * f32pi * (f.cutoff_frequency / f.sample_rate))
            / (2 * (1 + f.resonance * 10)))) / 2 * f.buffer.2
        - (-2 * cosq (sinq (2 * f32pi * (f.cutoff_frequency / f.sample_rate))
            / (2 * (1 + f.resonance * 10)))) * f.buffer.1
        - (1 - sinq (2 * f32pi * (f.cutoff_frequency / f.sample_rate))
            / (2 * (1 + f.resonance * 10))) * f.buffer.2)
        / (1 + sinq (2 * f32pi * (f.cutoff_frequency / f.sample_rate))
            / (2 * (1 + f.resonance * 10))),
       { f with buffer :=
          (((1 - cosq (sinq (2 * f32pi * (f.cutoff_frequency / f.sample_rate))
                / (2 * (1 + f.resonance * 10)))) / 2 * input
            + (1 - cosq (sinq (2 * f32pi * (f.cutoff_frequency / f.sample_rate))
                / (2 * (1 + f.resonance * 10)))) * f.buffer.1
            + (1 - cosq (sinq (2 * f32pi * (f.cutoff_frequency / f.sample_rate))
                / (2 * (1 + f.resonance * 10)))) / 2 * f.buffer.2
            - (-2 * cosq (sinq (2 * f32pi * (f.cutoff_frequency / f.sample_rate))
                / (2 * (1 + f.resonance * 10)))) * f.buffer.1
            - (1 - sinq (2 * f32pi * (f.cutoff_frequency / f.sample_rate))
                / (2 * (1 + f.resonance * 10))) * f.buffer.2)
            / (1 + sinq (2 * f32pi * (f.cutoff_frequency / f.sample_rate))
                / (2 * (1 + f.resonance * 10))),
           f.buffer.1) }) := rfl

/-- C5 counterexample: with the finite negative frequency -44100 at sample
rate 44100, a single `next_sample` call drives the phase accumulator from
0 to -1, which is outside [0,1): the wrap is a single conditional
subtraction, not a true modulo, so negative frequencies escape the
claimed invariant. -/
theorem claim5_counterexample :
    (((SineOscillator.new 44100).set_frequency (-44100)).next_sample zeroFn).2.phase = -1
    ∧ ¬ (0 ≤ (((SineOscillator.new 44100).set_frequency (-44100)).next_sample
          zeroFn).2.phase) := by
  have h : (((SineOscillator.new 44100).set_frequency (-44100)).next_sample
      zeroFn).2.phase = -1 := by
    norm_num [SineOscillator.next_sample, SineOscillator.set_frequency, SineOscillator.new]
  exact ⟨h, by rw [h]; norm_num⟩

/-- C5 (amended): the oscillator's phase accumulator stays in [0,1) across
every sequence of `next_sample` calls provided the frequency lies in
[0, sampleRate] (and the sample rate is positive): each call advances the
phase by frequency/sampleRate and subtracts 1 once if the result reached
1.  Negative frequencies (or frequencies above 2·sampleRate) break the
invariant, since the single conditional subtraction is not a modulo. -/
theorem claim5_theorem (o : SineOscillator) (sinq : ℚ → ℚ)
    (hp0 : 0 ≤ o.phase) (hp1 : o.phase < 1)
    (hf0 : 0 ≤ o.frequency) (hf1 : o.frequency ≤ o.sample_rate)
    (hs : 0 < o.sample_rate) :
    ∀ n, 0 ≤ (o.iterate sinq n).phase ∧ (o.iterate sinq n).phase < 1 := by
  have key : ∀ n, (0 ≤ (o.iterate sinq n).phase ∧ (o.iterate sinq n).phase < 1)
      ∧ (o.iterate sinq n).frequency = o.frequency
      ∧ (o.iterate sinq n).sample_rate = o.sample_rate := by
    intro n
    induction n with
    | zero => exact ⟨⟨hp0, hp1⟩, rfl, rfl⟩
    | succ n ih =>
      obtain ⟨⟨h0, h1⟩, hf, hsr⟩ := ih
      have hstep := next_sample_state sinq (o.iterate sinq n)
      have hinc0 : 0 ≤ (o.iterate sinq n).frequency / (o.iterate sinq n).sample_rate := by
        rw [hf, hsr]; positivity
      have hinc1 : (o.iterate sinq n).frequency / (o.iterate sinq n).sample_rate ≤ 1 := by
        rw [hf, hsr]
        rw [div_le_one hs]
        exact hf1
      refine ⟨?_, ?_, ?_⟩
      · show 0 ≤ (((o.iterate sinq n).next_sample sinq).2).phase
          ∧ (((o.iterate sinq n).next_sample sinq).2).phase < 1
        rw [hstep.1]
        split_ifs with hge
        · constructor <;> linarith
        · push_neg at hge
          constructor <;> linarith
      · show (((o.iterate sinq n).next_sample sinq).2).frequency = o.frequency
        rw [hstep.2.1, hf]
      · show (((o.iterate sinq n).next_sample sinq).2).sample_rate = o.sample_rate
        rw [hstep.2.2, hsr]
  exact fun n => (key n).1

/-- C5 witness: the fresh oscillator (frequency 440, sample rate 44100)
after three calls. -/
theorem claim5_witness :
    0 ≤ ((SineOscillator.new 44100).iterate zeroFn 3).phase
    ∧ ((SineOscillator.new 44100).iterate zeroFn 3).phase < 1 :=
  claim5_theorem (SineOscillator.new 44100) zeroFn
    (by norm_num [SineOscillator.new]) (by norm_num [SineOscillator.new])
    (by norm_num [SineOscillator.new]) (by norm_num [SineOscillator.new])
    (by norm_num [SineOscillator.new]) 3

/-- C6 counterexample: harmonic 1 of a fresh additive engine is disabled,
yet `set_harmonic_amplitude 1 (1/2)` sets its oscillator's amplitude to
1/2, not 0 — the setter does not re-derive the amplitude through the
`enabled ? amplitude : 0` rule. -/
theorem claim6_counterexample :
    (((AdditiveEngine.new 44100).set_harmonic_amplitude 1 (1/2)).harmonics.getD 1
        harmonicDefault).enabled = false
    ∧ (((AdditiveEngine.new 44100).set_harmonic_amplitude 1 (1/2)).oscillators.getD 1
        (SineOscillator.new 0)).amplitude = 1/2
    ∧ ¬ ((((AdditiveEngine.new 44100).set_harmonic_amplitude 1 (1/2)).oscillators.getD 1
        (SineOscillator.new 0)).amplitude = 0) := by
  have h2 : (((AdditiveEngine.new 44100).set_harmonic_amplitude 1 (1/2)).oscillators.getD 1
      (SineOscillator.new 0)).amplitude = 1/2 := rfl
  exact ⟨rfl, h2, by rw [h2]; norm_num⟩

/-- C6 (amended): for every in-bounds harmonic index,
`set_harmonic_amplitude i a` stores `a` in harmonic `i` (leaving its
enabled flag and frequency multiplier unchanged) and sets oscillator `i`'s
amplitude to `a` unconditionally — it is not gated by the enabled flag, so
a disabled harmonic's oscillator also receives amplitude `a` — while the
oscillator's frequency and phase, and every other harmonic and oscillator,
are unchanged. -/
theorem claim6_theorem (e : AdditiveEngine) (i : ℕ) (a : ℚ)
    (hh : i < e.harmonics.length) (ho : i < e.oscillators.length) :
    ((e.set_harmonic_amplitude i a).harmonics.getD i harmonicDefault).amplitude = a
    ∧ ((e.set_harmonic_amplitude i a).harmonics.getD i harmonicDefault).enabled
        = (e.harmonics.getD i harmonicDefault).enabled
    ∧ ((e.set_harmonic_amplitude i a).harmonics.getD i harmonicDefault).frequency_multiplier
        = (e.harmonics.getD i harmonicDefault).frequency_multiplier
    ∧ ((e.set_harmonic_amplitude i a).oscillators.getD i (SineOscillator.new 0)).amplitude = a
    ∧ ((e.set_harmonic_amplitude i a).oscillators.getD i (SineOscillator.new 0)).frequency
        = (e.oscillators.getD i (SineOscillator.new 0)).frequency
    ∧ ((e.set_harmonic_amplitude i a).oscillators.getD i (SineOscillator.new 0)).phase
        = (e.oscillators.getD i (SineOscillator.new 0)).phase
    ∧ (∀ j, j ≠ i →
        (e.set_harmonic_amplitude i a).harmonics.getD j harmonicDefault
          = e.harmonics.getD j harmonicDefault
        ∧ (e.set_harmonic_amplitude i a).oscillators.getD j (SineOscillator.new 0)
          = e.oscillators.getD j (SineOscillator.new 0)) := by
  simp only [AdditiveEngine.set_harmonic_amplitude, if_pos hh]
  refine ⟨?_, ?_, ?_, ?_, ?_, ?_, ?_⟩
  · rw [getD_modifyIdx_self _ _ _ _ hh]
  · rw [getD_modifyIdx_self _ _ _ _ hh]
  · rw [getD_modifyIdx_self _ _ _ _ hh]
  · rw [getD_modifyIdx_self _ _ _ _ ho]; rfl
  · rw [getD_modifyIdx_self _ _ _ _ ho]; rfl
  · rw [getD_modifyIdx_self _ _ _ _ ho]; rfl
  · intro j hj
    exact ⟨getD_modifyIdx_ne _ _ _ _ _ hj, getD_modifyIdx_ne _ _ _ _ _ hj⟩

/-- C6 witness: harmonic 2 of the fresh engine receives amplitude 1/3 in
both the harmonic record and its oscillator. -/
theorem claim6_witness :
    (((AdditiveEngine.new 44100).set_harmonic_amplitude 2 (1/3)).harmonics.getD 2
        harmonicDefault).amplitude = 1/3
    ∧ (((AdditiveEngine.new 44100).set_harmonic_amplitude 2 (1/3)).oscillators.getD 2
        (SineOscillator.new 0)).amplitude = 1/3 := by
  have h := claim6_theorem (AdditiveEngine.new 44100) 2 (1/3)
    (by simp [AdditiveEngine.new]) (by simp [AdditiveEngine.new])
  exact ⟨h.1, h.2.2.2.1⟩

theorem map_fst_pair_map {β γ : Type} (l : List (ℕ × β)) (f : ℕ × β → γ) :
    (l.map (fun p => (p.1, f p))).map Prod.fst = l.map Prod.fst := by
  induction l with
  | nil => rfl
  | cons a t ih => simp [ih]

theorem keys_note_on (pow2q : ℚ → ℚ) (s : Synthesizer) (n : ℕ) (v : ℚ) :
    (s.note_on pow2q n v).voices.map Prod.fst =
      if n ∈ s.voices.map Prod.fst then s.voices.map Prod.fst
      else s.voices.map Prod.fst ++ [n] := by
  simp only [Synthesizer.note_on]
  split_ifs with h
  · exact map_fst_pair_map _ _
  · simp

theorem keys_note_off (s : Synthesizer) (n : ℕ) :
    (s.note_off n).voices.map Prod.fst = s.voices.map Prod.fst := by
  simp only [Synthesizer.note_off]
  exact map_fst_pair_map _ _

theorem keys_sample (sinq cosq : ℚ → ℚ) (s : Synthesizer) :
    ((s.next_sample sinq cosq).2).voices.map Prod.fst = s.voices.map Prod.fst := by
  simp only [Synthesizer.next_sample]
  rw [map_fst_pair_map, map_fst_pair_map]

theorem run_keys (pow2q sinq cosq : ℚ → ℚ) :
    ∀ (es : List SynthEvent) (s : Synthesizer),
      ((es.foldl (Synthesizer.applyEvent pow2q sinq cosq) s).voices.map Prod.fst).toFinset
        = (s.voices.map Prod.fst).toFinset ∪ (es.filterMap SynthEvent.noteOnNote).toFinset
      ∧ ((s.voices.map Prod.fst).Nodup →
          ((es.foldl (Synthesizer.applyEvent pow2q sinq cosq) s).voices.map Prod.fst).Nodup) := by
  intro es
  induction es with
  | nil => intro s; simp
  | cons ev es ih =>
    intro s
    rw [List.foldl_cons]
    obtain ⟨ht, hn⟩ := ih (Synthesizer.applyEvent pow2q sinq cosq s ev)
    cases ev with
    | noteOn n v =>
      simp only [Synthesizer.applyEvent] at ht hn
      have hkeys := keys_note_on pow2q s n v
      constructor
      · simp only [Synthesizer.applyEvent]
        rw [ht, hkeys]
        simp only [List.filterMap_cons, SynthEvent.noteOnNote, List.toFinset_cons]
        split_ifs with hmem
        · have hm : n ∈ (s.voices.map Prod.fst).toFinset := List.mem_toFinset.mpr hmem
          rw [Finset.union_insert, Finset.insert_eq_self.mpr (Finset.mem_union_left _ hm)]
        · rw [List.toFinset_append]
          simp [Finset.union_assoc, Finset.insert_eq]
      · intro hnd
        simp only [Synthesizer.applyEvent]
        apply hn
        rw [hkeys]
        split_ifs with hmem
        · exact hnd
        · simp [List.nodup_append, hnd, hmem]
    | noteOff n =>
      simp only [Synthesizer.applyEvent] at ht hn
      constructor
      · simp only [Synthesizer.applyEvent]
        rw [ht, keys_note_off]
        simp [List.filterMap_cons, SynthEvent.noteOnNote]
      · intro hnd
        simp only [Synthesizer.applyEvent]
        apply hn
        rw [keys_note_off]
        exact hnd
    | sample =>
      simp only [Synthesizer.applyEvent] at ht hn
      constructor
      · simp only [Synthesizer.applyEvent]
        rw [ht, keys_sample]
        simp [List.filterMap_cons, SynthEvent.noteOnNote]
      · intro hnd
        simp only [Synthesizer.applyEvent]
        apply hn
        rw [keys_sample]
        exact hnd

/-- C7 (confirmed): after any trace of note-on, note-off and sample events
from the fresh synthesizer, `next_sample` returns the sum of the per-voice
samples over all voices in the pool (active and inactive alike) divided by
the current total pool size, and that pool size equals the number of
distinct notes ever passed to `note_on` in the trace — `note_off` and
envelope completion never remove a voice. -/
theorem claim7_theorem (pow2q sinq cosq : ℚ → ℚ) (es : List SynthEvent) :
    ((Synthesizer.run pow2q sinq cosq es).next_sample sinq cosq).1
      = ((Synthesizer.run pow2q sinq cosq es).voices.map
          (fun p => (p.2.next_sample sinq cosq).1)).sum
        / ((Synthesizer.run pow2q sinq cosq es).voices.length : ℚ)
    ∧ (Synthesizer.run pow2q sinq cosq es).voices.length
        = (es.filterMap SynthEvent.noteOnNote).toFinset.card := by
  constructor
  · simp only [Synthesizer.next_sample, List.map_map, Function.comp_def]
  · simp only [Synthesizer.run]
    have h := (run_keys pow2q sinq cosq es Synthesizer.new).1
    have hn := (run_keys pow2q sinq cosq es Synthesizer.new).2 (by simp [Synthesizer.new])
    have hnew : (((Synthesizer.new).voices.map Prod.fst).toFinset) = (∅ : Finset ℕ) := rfl
    rw [hnew, Finset.empty_union] at h
    rw [← List.length_map _ Prod.fst, ← List.toFinset_card_of_nodup hn, h]

theorem claim8_aux (e : EnvelopeGenerator) (hs : 0 < e.sample_rate) :
    ∀ k, 1 ≤ k →
      ((e.note_off).iterate k).envelope = e.envelope
      ∧ ((e.note_off).iterate k).sample_rate = e.sample_rate
      ∧ (if e.envelope.release ≤ (k : ℚ) / e.sample_rate
         then ((e.note_off).iterate k).current_stage = EnvelopeStage.Idle
              ∧ ((e.note_off).iterate k).current_value = 0
         else ((e.note_off).iterate k).current_stage = EnvelopeStage.Release
              ∧ ((e.note_off).iterate k).current_time = (k : ℚ) / e.sample_rate
              ∧ ((e.note_off).iterate k).current_value
                  = e.envelope.sustain * (1 - ((k : ℚ) / e.sample_rate) / e.envelope.release)) := by
  intro k hk
  induction k with
  | zero => omega
  | succ k ih =>
    by_cases hk0 : k = 0
    · subst hk0
      have h1 : ((e.note_off).iterate 1) = ((e.note_off).next_sample).2 := rfl
      rw [h1]
      simp only [EnvelopeGenerator.next_sample, EnvelopeGenerator.note_off]
      norm_num
      split_ifs with hcond <;> simp_all
    · have hk1 : 1 ≤ k := Nat.one_le_iff_ne_zero.mpr hk0
      obtain ⟨henv, hsr, hbranch⟩ := ih hk1
      have hmono : (k : ℚ) / e.sample_rate ≤ ((k : ℚ) + 1) / e.sample_rate := by
        apply div_le_div_of_nonneg_right ?_ hs.le
        · linarith
      have hstep : ((e.note_off).iterate (k + 1))
          = (((e.note_off).iterate k).next_sample).2 := rfl
      by_cases hc : e.envelope.release ≤ (k : ℚ) / e.sample_rate
      · rw [if_pos hc] at hbranch
        obtain ⟨hstage, hval⟩ := hbranch
        have hred : (((e.note_off).iterate k).next_sample).2
            = { ((e.note_off).iterate k) with current_value := 0 } := by
          simp only [EnvelopeGenerator.next_sample, hstage]
        rw [hstep, hred]
        have hc' : e.envelope.release ≤ ((k + 1 : ℕ) : ℚ) / e.sample_rate := by
          push_cast
          linarith [hmono]
        rw [if_pos hc']
        exact ⟨henv, hsr, hstage, rfl⟩
      · rw [if_neg hc] at hbranch
        obtain ⟨hstage, htime, hval⟩ := hbranch
        have hred : (((e.note_off).iterate k).next_sample).2
            = (if ((e.note_off).iterate k).current_time
                  + 1 / ((e.note_off).iterate k).sample_rate ≥ e.envelope.release
               then { ((e.note_off).iterate k) with
                      current_time := ((e.note_off).iterate k).current_time
                        + 1 / ((e.note_off).iterate k).sample_rate,
                      current_stage := EnvelopeStage.Idle, current_value := 0 }
               else { ((e.note_off).iterate k) with
                      current_time := ((e.note_off).iterate k).current_time
                        + 1 / ((e.note_off).iterate k).sample_rate,
                      current_value := e.envelope.sustain
                        * (1 - (((e.note_off).iterate k).current_time
                            + 1 / ((e.note_off).iterate k).sample_rate) / e.envelope.release) }) := by
          simp only [EnvelopeGenerator.next_sample, hstage, henv]
        have harith : ((e.note_off).iterate k).current_time
            + 1 / ((e.note_off).iterate k).sample_rate = ((k + 1 : ℕ) : ℚ) / e.sample_rate := by
          rw [htime, hsr]
          push_cast
          rw [div_add_div_same]
        rw [hstep, hred, harith]
        by_cases hc2 : e.envelope.release ≤ ((k + 1 : ℕ) : ℚ) / e.sample_rate
        · rw [if_pos (ge_iff_le.mpr hc2), if_pos hc2]
          exact ⟨henv, hsr, rfl, rfl⟩
        · have hlt : ¬ (((k + 1 : ℕ) : ℚ) / e.sample_rate ≥ e.envelope.release) := hc2
          rw [if_neg hlt, if_neg hc2]
          exact ⟨henv, hsr, hstage, rfl, rfl⟩

/-- C8 (confirmed): after `note_off`, regardless of the envelope's stage,
elapsed time and output value at the moment the note-off was issued, the
value after k subsequent `next_sample` calls is
`sustain * (1 - (k/sampleRate)/release)` while `k/sampleRate < release`,
and 0 from the moment `k/sampleRate ≥ release` — the Release ramp always
starts from the sustain parameter, not from the current output value. -/
theorem claim8_theorem (e : EnvelopeGenerator) (k : ℕ) (hs : 0 < e.sample_rate)
    (hk : 1 ≤ k) :
    ((e.note_off).iterate k).current_value =
      if e.envelope.release ≤ (k : ℚ) / e.sample_rate then 0
      else e.envelope.sustain * (1 - ((k : ℚ) / e.sample_rate) / e.envelope.release) := by
  obtain ⟨-, -, hbranch⟩ := claim8_aux e hs k hk
  by_cases hc : e.envelope.release ≤ (k : ℚ) / e.sample_rate
  · rw [if_pos hc] at hbranch ⊢
    exact hbranch.2
  · rw [if_neg hc] at hbranch ⊢
    exact hbranch.2.2

/-- C8 witness: an envelope released mid-Attack at output value 1/100
ramps from the sustain level 7/10, not from 1/100. -/
theorem claim8_witness :
    ((envelopeMidAttack.note_off).iterate 2).current_value
      = 7/10 * (1 - ((2 : ℚ)/44100)/(1/5)) := by
  have h := claim8_theorem envelopeMidAttack 2
    (by norm_num [envelopeMidAttack, EnvelopeGenerator.new]) (by norm_num)
  rw [h]
  norm_num [envelopeMidAttack, EnvelopeGenerator.new, Envelope.default]

/-- C9 (confirmed): for every envelope state with nonnegative elapsed time
and positive sample rate, the instrumented `next_sampleChecked` — which
returns `none` exactly when the source's division would have a zero stage
duration as divisor, the only way the f32 code could produce a non-finite
value — returns `some`; and a stage whose duration is ≤ 0 skips to the
next stage's starting value on the very next sample: Attack jumps to 1
(Decay's start), Decay to the sustain value, Release to 0 (Idle). -/
theorem claim9_theorem (e : EnvelopeGenerator) (hs : 0 < e.sample_rate)
    (ht : 0 ≤ e.current_time) :
    e.next_sampleChecked = some e.next_sample
    ∧ (e.current_stage = EnvelopeStage.Attack → e.envelope.attack ≤ 0 →
        (e.next_sample).1 = 1 ∧ (e.next_sample).2.current_stage = EnvelopeStage.Decay)
    ∧ (e.current_stage = EnvelopeStage.Decay → e.envelope.decay ≤ 0 →
        (e.next_sample).1 = e.envelope.sustain
        ∧ (e.next_sample).2.current_stage = EnvelopeStage.Sustain)
    ∧ (e.current_stage = EnvelopeStage.Release → e.envelope.release ≤ 0 →
        (e.next_sample).1 = 0 ∧ (e.next_sample).2.current_stage = EnvelopeStage.Idle) := by
  have hpos : 0 < e.current_time + 1 / e.sample_rate :=
    add_pos_of_nonneg_of_pos ht (by positivity)
  refine ⟨?_, ?_, ?_, ?_⟩
  · cases hstage : e.current_stage <;>
      simp only [EnvelopeGenerator.next_sampleChecked, hstage] <;>
      split_ifs with h1 h2 <;> try rfl
    all_goals
      exfalso
      rw [ge_iff_le, not_le] at h1
      rw [h2] at h1
      linarith
  · intro hstage hdur
    have hge : e.current_time + 1 / e.sample_rate ≥ e.envelope.attack := by linarith
    simp only [EnvelopeGenerator.next_sample, hstage, if_pos hge]
    exact ⟨trivial, trivial⟩
  · intro hstage hdur
    have hge : e.current_time + 1 / e.sample_rate ≥ e.envelope.decay := by linarith
    simp only [EnvelopeGenerator.next_sample, hstage, if_pos hge]
    exact ⟨trivial, trivial⟩
  · intro hstage hdur
    have hge : e.current_time + 1 / e.sample_rate ≥ e.envelope.release := by linarith
    simp only [EnvelopeGenerator.next_sample, hstage, if_pos hge]
    exact ⟨trivial, trivial⟩

/-- C9 witness: an Attack-stage envelope with attack = 0 produces a checked
`some` result and jumps to value 1 in stage Decay on the next sample. -/
theorem claim9_witness :
    envelopeAttackZero.next_sampleChecked = some envelopeAttackZero.next_sample
    ∧ (envelopeAttackZero.next_sample).1 = 1
    ∧ (envelopeAttackZero.next_sample).2.current_stage = EnvelopeStage.Decay := by
  have h := claim9_theorem envelopeAttackZero
    (by norm_num [envelopeAttackZero, EnvelopeGenerator.new])
    (by norm_num [envelopeAttackZero, EnvelopeGenerator.new])
  have h2 := h.2.1 rfl (by norm_num [envelopeAttackZero, Envelope.default])
  exact ⟨h.1, h2.1, h2.2⟩

/-- C10 (confirmed): with the empty voice pool (no note-on ever issued),
`next_sampleChecked` — whose final division carries f32 semantics through
`f32div`, so a zero divisor marks the non-finite result `0.0/0.0 = NaN` as
`none` — returns `none` rather than 0; for every non-empty pool the
divisor is the positive pool size and the result is the finite quotient
computed by `next_sample`. -/
theorem claim10_theorem (sinq cosq : ℚ → ℚ) (s : Synthesizer) :
    (s.voices = [] → (s.next_sampleChecked sinq cosq).1 = none)
    ∧ (s.voices ≠ [] →
        0 < s.voices.length
        ∧ (s.next_sampleChecked sinq cosq).1 = some ((s.next_sample sinq cosq).1)) := by
  constructor
  · intro h
    simp [Synthesizer.next_sampleChecked, h, f32div]
  · intro h
    have hl : 0 < s.voices.length := List.length_pos.mpr h
    refine ⟨hl, ?_⟩
    have hne : ((s.voices.length : ℚ)) ≠ 0 :=
      Nat.cast_ne_zero.mpr (Nat.pos_iff_ne_zero.mp hl)
    simp [Synthesizer.next_sampleChecked, Synthesizer.next_sample, f32div, hne]

/-- C10 witness: the fresh synthesizer yields `none` (NaN), and after one
note-on the pool is non-empty with a `some` result. -/
theorem claim10_witness :
    ((Synthesizer.new).next_sampleChecked zeroFn zeroFn).1 = none
    ∧ (0 < ((Synthesizer.new).note_on oneFn 60 1).voices.length
       ∧ (((Synthesizer.new).note_on oneFn 60 1).next_sampleChecked zeroFn zeroFn).1
          = some ((((Synthesizer.new).note_on oneFn 60 1).next_sample zeroFn zeroFn).1)) :=
  ⟨(claim10_theorem zeroFn zeroFn Synthesizer.new).1 rfl,
   (claim10_theorem zeroFn zeroFn ((Synthesizer.new).note_on oneFn 60 1)).2
     (by simp [Synthesizer.note_on, Synthesizer.new])⟩
